import Mathlib

/-!
Shallow embedding of the VirtualBox ternary-coprocessor device model
(`src/DevTernary.c`): balanced-ternary ALU, trit codec, MMIO read/write
handlers, and the five-state FSM controller, together with theorems about
the register-level behaviour.

Conventions:
* a trit (C type `TRIT`, an `int8_t` holding −1/0/+1) is an `Int`;
* a trit vector (`TRIT input[81]` etc.) is a function `Nat → Int`,
  meaningful at indices `< 81` (`TRIT_COUNT = 81`);
* the stack (`TRIT stack[16][81]`) is `Nat → Nat → Int` (slot, position);
* machine words (`uint32_t`) are `Nat`; the only place a `uint32_t`
  increment occurs (`operand_words++`) is modelled with an explicit
  `% 2^32`;
* every C loop `for (i = 0; i < TRIT_COUNT; i++)` over a vector becomes a
  functional update guarded by `j < 81`, matching the loop bounds.
-/

namespace DevTernary

/-- FSM states of `TERNARY_STATE` in DevTernary.c. -/
inductive TState where
  | IDLE
  | FETCH
  | EXECUTE
  | WRITEBACK
  | DONE
deriving DecidableEq, Repr

/-- The device register file, C struct `DEVTERNARY`. -/
structure Dev where
  input : Nat → Int
  output : Nat → Int
  stack : Nat → Nat → Int
  stack_ptr : Nat
  command : Nat
  status : Nat
  operand_words : Nat
  operand_count : Nat
  state : TState
  temp_result : Nat → Int

/-- `t` is a balanced-ternary digit. -/
def IsTrit (t : Int) : Prop := t = -1 ∨ t = 0 ∨ t = 1

instance (t : Int) : Decidable (IsTrit t) := by
  unfold IsTrit; infer_instance

/-- C `ternary_add`: sum of two trits, normalized into `{−1,0,1}` with a
carry out; returned as (result, carry) in place of the C out-parameter. -/
def ternary_add (a b : Int) : Int × Int :=
  let sum := a + b
  if sum < -1 then (sum + 3, -1)
  else if sum > 1 then (sum - 3, 1)
  else (sum, 0)

/-- C `ternary_not`: negation. -/
def ternary_not (a : Int) : Int := -a

/-- C `ternary_and`: minimum, via `(a < b) ? a : b`. -/
def ternary_and (a b : Int) : Int := if a < b then a else b

/-- Decode one 2-bit field to a trit: `bits==2 ? -1 : bits==1 ? 1 : 0`
(write handler, line 113). -/
def decodeTrit (bits : Nat) : Int :=
  if bits = 2 then -1 else if bits = 1 then 1 else 0

/-- Encode one trit to its 2-bit field: `(t == -1 ? 2 : t)`
(read handler, line 157). -/
def encodeTrit (t : Int) : Nat :=
  if t = -1 then 2 else t.toNat

/-- The read-handler packing loop `value |= enc(out[off+i]) << (i*2)`
for `i < max && off + i < 81`, starting from `value = 0`. -/
def encodeRange (out : Nat → Int) (off max : Nat) : Nat :=
  (List.range max).foldl
    (fun value i =>
      if off + i < 81 then value ||| (encodeTrit (out (off + i)) <<< (2 * i))
      else value) 0

/-- List-level form of the packing loop: trit `v[k]` contributes its 2-bit
field at bit position `2*(i+k)`. `encodeWord v = encodeFrom v 0` is the
word the read handler builds from the trit list `v`. -/
def encodeFrom : List Int → Nat → Nat
  | [], _ => 0
  | t :: ts, i => (encodeTrit t <<< (2 * i)) ||| encodeFrom ts (i + 1)

/-- Pack a trit list into a word, as the read handler does for one word. -/
def encodeWord (v : List Int) : Nat := encodeFrom v 0

/-- List-level form of the write-handler unpacking loop
`bits = (value >> (i*2)) & 0x3` decoded via `decodeTrit`, for `n` trits
starting at field index `i`. -/
def decodeFrom (w : Nat) : Nat → Nat → List Int
  | _, 0 => []
  | i, n + 1 => decodeTrit ((w >>> (2 * i)) &&& 3) :: decodeFrom w (i + 1) n

/-- Unpack the first `n` 2-bit fields of a word into a trit list. -/
def decodeWord (w : Nat) (n : Nat) : List Int := decodeFrom w 0 n

/-- C `ternary_mmio_write` (DevTernary.c lines 90–136).
Register layout: INPUT words at `[0x00, 0x18)`, COMMAND at `0x40 = 64`,
OPERAND_COUNT at `0x48 = 72`. -/
def ternary_mmio_write (d : Dev) (addr value size : Nat) : Dev :=
  if size ≠ 4 then { d with status := d.status ||| 1 }
  else if d.state ≠ TState.IDLE then d
  else if addr < 24 then
    let word_idx := addr / 4
    let trit_offset := word_idx * 16
    if trit_offset < 81 then
      let max_trits := if word_idx = 5 then 81 - trit_offset else 16
      let d1 : Dev :=
        { d with input := fun j =>
            if trit_offset ≤ j ∧ j < trit_offset + max_trits ∧ j < 81 then
              decodeTrit ((value >>> ((j - trit_offset) * 2)) &&& 3)
            else d.input j }
      let ow := (d.operand_words + 1) % 4294967296
      if d.operand_count ≤ ow then
        { d1 with operand_words := 0, state := TState.FETCH }
      else
        { d1 with operand_words := ow }
    else d
  else if addr = 64 then
    { d with command := value, status := 0, state := TState.FETCH }
  else if addr = 72 then
    { d with operand_count := 6, operand_words := 0 }
  else { d with status := d.status ||| 2 }

/-- C `ternary_mmio_read` (DevTernary.c lines 139–173), returning the read
value together with the (possibly updated) device. OUTPUT words at
`[0x20, 0x38) = [32, 56)`, STATUS at `0x44 = 68`, OPERAND_COUNT at
`0x48 = 72`. -/
def ternary_mmio_read (d : Dev) (addr size : Nat) : Nat × Dev :=
  if size ≠ 4 then (0, { d with status := d.status ||| 1 })
  else if 32 ≤ addr ∧ addr < 32 + 24 then
    let word_idx := (addr - 32) / 4
    let trit_offset := word_idx * 16
    if trit_offset < 81 then
      let max_trits := if word_idx = 5 then 81 - trit_offset else 16
      (encodeRange d.output trit_offset max_trits, d)
    else (0, { d with status := d.status ||| 2 })
  else if addr = 68 then (d.status, d)
  else if addr = 72 then (d.operand_count, d)
  else (0, { d with status := d.status ||| 2 })

/-- The EXECUTE-state command dispatch of `ternary_process_state`
(DevTernary.c lines 189–284), without the final `state := WRITEBACK`. -/
def execute_command (d : Dev) : Dev :=
  match d.command with
  | 0 =>
    { d with temp_result := fun j => if j < 81 then 0 else d.temp_result j }
  | 3 =>
    if 2 ≤ d.stack_ptr then
      let temp := fun j =>
        if j < 81 then
          (ternary_add (d.stack (d.stack_ptr - 1) j) (d.stack (d.stack_ptr - 2) j)).1
        else d.temp_result j
      let sp := d.stack_ptr - 1
      { d with temp_result := temp,
               stack_ptr := sp,
               stack := fun k j =>
                 if k = sp - 1 ∧ j < 81 then temp j else d.stack k j }
    else { d with status := d.status ||| 8 }
  | 4 =>
    if 1 ≤ d.stack_ptr then
      let temp := fun j =>
        if j < 81 then ternary_not (d.stack (d.stack_ptr - 1) j)
        else d.temp_result j
      { d with temp_result := temp,
               stack := fun k j =>
                 if k = d.stack_ptr - 1 ∧ j < 81 then temp j else d.stack k j }
    else { d with status := d.status ||| 8 }
  | 5 =>
    if 2 ≤ d.stack_ptr then
      let temp := fun j =>
        if j < 81 then
          ternary_and (d.stack (d.stack_ptr - 1) j) (d.stack (d.stack_ptr - 2) j)
        else d.temp_result j
      let sp := d.stack_ptr - 1
      { d with temp_result := temp,
               stack_ptr := sp,
               stack := fun k j =>
                 if k = sp - 1 ∧ j < 81 then temp j else d.stack k j }
    else { d with status := d.status ||| 8 }
  | 1 =>
    if d.stack_ptr < 16 then
      { d with stack := fun k j =>
                 if k = d.stack_ptr ∧ j < 81 then d.input j else d.stack k j,
               temp_result := fun j =>
                 if j < 81 then d.input j else d.temp_result j,
               stack_ptr := d.stack_ptr + 1 }
    else { d with status := d.status ||| 4 }
  | 2 =>
    if 0 < d.stack_ptr then
      let sp := d.stack_ptr - 1
      { d with stack_ptr := sp,
               temp_result := fun j =>
                 if j < 81 then d.stack sp j else d.temp_result j }
    else { d with status := d.status ||| 8 }
  | 6 =>
    { d with temp_result := fun j =>
        if j < 81 then d.input ((j + 1) % 81) else d.temp_result j }
  | _ => { d with status := d.status ||| 16 }

/-- C `ternary_process_state` (DevTernary.c lines 176–301): one FSM tick. -/
def ternary_process_state (d : Dev) : Dev :=
  match d.state with
  | TState.IDLE => d
  | TState.FETCH => { d with state := TState.EXECUTE }
  | TState.EXECUTE => { execute_command d with state := TState.WRITEBACK }
  | TState.WRITEBACK =>
    { d with output := fun j => if j < 81 then d.temp_result j else d.output j,
             state := TState.DONE }
  | TState.DONE => { d with state := TState.IDLE }

/-- The device as initialized by `devTernaryConstruct` (lines 322–326):
zeroed, `operand_count = WORDS_PER_OPERAND = 6`, state IDLE. -/
def initDev : Dev :=
  { input := fun _ => 0
    output := fun _ => 0
    stack := fun _ _ => 0
    stack_ptr := 0
    command := 0
    status := 0
    operand_words := 0
    operand_count := 6
    state := TState.IDLE
    temp_result := fun _ => 0 }

/-- One externally triggered device operation: an MMIO read, an MMIO
write, or an FSM tick. -/
inductive Op where
  | read (addr size : Nat)
  | write (addr value size : Nat)
  | tick

/-- Apply one operation to the device. -/
def applyOp (d : Dev) : Op → Dev
  | Op.read addr size => (ternary_mmio_read d addr size).2
  | Op.write addr value size => ternary_mmio_write d addr value size
  | Op.tick => ternary_process_state d

/-- Run a sequence of operations from a device state. -/
def run (d : Dev) (ops : List Op) : Dev := ops.foldl applyOp d

/-- A device state reachable from the constructed device by MMIO reads,
MMIO writes and ticks. -/
def Reachable (d : Dev) : Prop := ∃ ops : List Op, run initDev ops = d

end DevTernary

namespace DevTernary

/-- C3: for trits `a, b ∈ {−1,0,+1}`, `ternary_add a b` returns a result
in `{−1,0,+1}` and a carry in `{−1,0,+1}` with `a + b = result + 3·carry`. -/
theorem C3_ternary_add_carry_law (a b : Int) (ha : IsTrit a) (hb : IsTrit b) :
    IsTrit (ternary_add a b).1 ∧ IsTrit (ternary_add a b).2 ∧
      a + b = (ternary_add a b).1 + 3 * (ternary_add a b).2 := by
  rcases ha with rfl | rfl | rfl <;> rcases hb with rfl | rfl | rfl <;> decide

/-- Witness for C3 at the concrete input `a = −1`, `b = −1`. -/
theorem C3_witness :
    IsTrit (ternary_add (-1) (-1)).1 ∧ IsTrit (ternary_add (-1) (-1)).2 ∧
      (-1 : Int) + (-1) = (ternary_add (-1) (-1)).1 + 3 * (ternary_add (-1) (-1)).2 :=
  C3_ternary_add_carry_law (-1) (-1) (by decide) (by decide)

/-- The strict successor function of the FSM cycle
IDLE → FETCH → EXECUTE → WRITEBACK → DONE → IDLE (IDLE rests). -/
def nextState : TState → TState
  | TState.IDLE => TState.IDLE
  | TState.FETCH => TState.EXECUTE
  | TState.EXECUTE => TState.WRITEBACK
  | TState.WRITEBACK => TState.DONE
  | TState.DONE => TState.IDLE

/-- C6: every tick advances the FSM by exactly one step of the cycle
FETCH → EXECUTE → WRITEBACK → DONE → IDLE, with IDLE resting, and never
skips a state. -/
theorem C6_tick_advances_exactly_one_state (d : Dev) :
    (ternary_process_state d).state = nextState d.state := by
  cases h : d.state <;> simp [ternary_process_state, nextState, h]

/-- C1 counterexample: with the FSM in FETCH (≠ IDLE), a 1-byte MMIO write
still changes the status register (it ORs in the InvalidSize flag before
the IDLE check), so not every register is left unchanged. -/
theorem C1_counterexample :
    (ternary_mmio_write { initDev with state := TState.FETCH } 0 0 1).status ≠
      ({ initDev with state := TState.FETCH } : Dev).status := by
  decide

/-- C1 (amended): with the FSM not in IDLE, every 4-byte MMIO write leaves
the whole register file unchanged. -/
theorem C1_write_ignored_outside_idle (d : Dev) (addr value : Nat)
    (h : d.state ≠ TState.IDLE) :
    ternary_mmio_write d addr value 4 = d := by
  simp [ternary_mmio_write, h]

/-- Witness for C1 at a concrete non-IDLE device and a concrete write. -/
theorem C1_witness :
    ({ initDev with state := TState.FETCH } : Dev).state ≠ TState.IDLE ∧
      ternary_mmio_write { initDev with state := TState.FETCH } 5 7 4 =
        { initDev with state := TState.FETCH } :=
  ⟨by decide, C1_write_ignored_outside_idle _ 5 7 (by decide)⟩

end DevTernary

namespace DevTernary

/-- What one EXECUTE tick does for a binary stack operation combining the
two topmost slots position-wise with `f`: with `stack_ptr ≥ 2` it pops one
slot, the new top slot and `temp_result` both hold the position-wise
combination of the two previous topmost slots, and all slots below the new
top are untouched; with `stack_ptr < 2` it only ORs the StackUnderflow
flag (0x8) into `status`, leaving `temp_result`, `stack_ptr` and the stack
unchanged. -/
def BinopConcl (d : Dev) (f : Int → Int → Int) : Prop :=
  (2 ≤ d.stack_ptr →
    (ternary_process_state d).stack_ptr = d.stack_ptr - 1 ∧
    (∀ j, j < 81 →
      (ternary_process_state d).stack (d.stack_ptr - 2) j =
        f (d.stack (d.stack_ptr - 1) j) (d.stack (d.stack_ptr - 2) j) ∧
      (ternary_process_state d).temp_result j =
        f (d.stack (d.stack_ptr - 1) j) (d.stack (d.stack_ptr - 2) j)) ∧
    (∀ k, k < d.stack_ptr - 2 → ∀ j,
      (ternary_process_state d).stack k j = d.stack k j)) ∧
  (d.stack_ptr < 2 →
    (ternary_process_state d).status = d.status ||| 8 ∧
    (ternary_process_state d).temp_result = d.temp_result ∧
    (ternary_process_state d).stack_ptr = d.stack_ptr ∧
    (ternary_process_state d).stack = d.stack)

/-- C2: in EXECUTE, command ADD (3) combines the two topmost slots with
the position-wise normalizing trit sum (no carry chained between
positions), and command AND (5) with the position-wise minimum; both pop
one slot and mirror the result into `temp_result`, and both set
StackUnderflow and change nothing else when `stack_ptr < 2`. -/
theorem C2_execute_add_and (d : Dev) (hs : d.state = TState.EXECUTE) :
    (d.command = 3 → BinopConcl d (fun a b => (ternary_add a b).1)) ∧
    (d.command = 5 → BinopConcl d ternary_and) := by
  constructor <;> intro hc <;>
    refine ⟨fun h2 => ?_, fun hlt => ?_⟩ <;>
      simp only [ternary_process_state, hs, execute_command, hc]
  · rw [if_pos h2]
    refine ⟨rfl, fun j hj => ?_, fun k hk j => ?_⟩
    · constructor
      · simp [Nat.sub_sub, hj]
      · simp [hj]
    · have : ¬ (k = d.stack_ptr - 1 - 1 ∧ j < 81) := by
        rintro ⟨h1, h2⟩; omega
      simp [this]
  · rw [if_neg (by omega)]
    exact ⟨rfl, rfl, rfl, rfl⟩
  · rw [if_pos h2]
    refine ⟨rfl, fun j hj => ?_, fun k hk j => ?_⟩
    · constructor
      · simp [Nat.sub_sub, hj]
      · simp [hj]
    · have : ¬ (k = d.stack_ptr - 1 - 1 ∧ j < 81) := by
        rintro ⟨h1, h2⟩; omega
      simp [this]
  · rw [if_neg (by omega)]
    exact ⟨rfl, rfl, rfl, rfl⟩

/-- Witness for C2 at a concrete device in EXECUTE. -/
theorem C2_witness :
    ({ initDev with state := TState.EXECUTE } : Dev).state = TState.EXECUTE ∧
      (({ initDev with state := TState.EXECUTE } : Dev).command = 3 →
        BinopConcl { initDev with state := TState.EXECUTE }
          (fun a b => (ternary_add a b).1)) ∧
      (({ initDev with state := TState.EXECUTE } : Dev).command = 5 →
        BinopConcl { initDev with state := TState.EXECUTE } ternary_and) :=
  ⟨rfl, C2_execute_add_and _ rfl⟩

end DevTernary

namespace DevTernary

theorem encodeTrit_lt_four (t : Int) (h : IsTrit t) : encodeTrit t < 4 := by
  rcases h with rfl | rfl | rfl <;> decide

theorem testBit_three (i : Nat) : Nat.testBit 3 i = decide (i < 2) := by
  match i with
  | 0 => rfl
  | 1 => rfl
  | k + 2 =>
    have h4 : (3 : Nat) < 2 ^ (k + 2) := by
      have : (2 : Nat) ^ 2 ≤ 2 ^ (k + 2) := Nat.pow_le_pow_right (by omega) (by omega)
      omega
    simp [Nat.testBit_lt_two_pow h4]

theorem and_three (n : Nat) : n &&& 3 = n % 4 := by
  apply Nat.eq_of_testBit_eq
  intro i
  rw [Nat.testBit_and, show (4 : Nat) = 2 ^ 2 from rfl, Nat.testBit_mod_two_pow,
    testBit_three, Bool.and_comm]

theorem four_mul_or (a b : Nat) : 4 * a ||| 4 * b = 4 * (a ||| b) := by
  have e : ∀ x : Nat, 4 * x = x <<< 2 := fun x => by rw [Nat.shiftLeft_eq]; ring
  rw [e, e, e]
  apply Nat.eq_of_testBit_eq
  intro i
  simp [Nat.testBit_or, Nat.testBit_shiftLeft, Bool.and_or_distrib_left]

theorem mod_four_or (a b : Nat) : (a ||| b) % 4 = a % 4 ||| b % 4 := by
  show (a ||| b) % 2 ^ 2 = a % 2 ^ 2 ||| b % 2 ^ 2
  apply Nat.eq_of_testBit_eq
  intro i
  simp only [Nat.testBit_mod_two_pow, Nat.testBit_or, Bool.and_or_distrib_left]

theorem div_four_or (a b : Nat) : (a ||| b) / 4 = a / 4 ||| b / 4 := by
  have e : ∀ x : Nat, x / 4 = x >>> 2 := fun x => by
    rw [Nat.shiftRight_eq_div_pow]
  rw [e, e, e]
  apply Nat.eq_of_testBit_eq
  intro i
  simp [Nat.testBit_or, Nat.testBit_shiftRight]

theorem or_four (x y : Nat) (h : x < 4) : x ||| 4 * y = x + 4 * y := by
  have h1 : (x ||| 4 * y) % 4 = x := by
    rw [mod_four_or, Nat.mul_mod_right, Nat.mod_eq_of_lt h, Nat.or_zero]
  have h2 : (x ||| 4 * y) / 4 = y := by
    have hy : 4 * y / 4 = y := by omega
    rw [div_four_or, Nat.div_eq_of_lt h, hy, Nat.zero_or]
  omega

theorem encodeFrom_succ (v : List Int) (i : Nat) :
    encodeFrom v (i + 1) = 4 * encodeFrom v i := by
  induction v generalizing i with
  | nil => simp [encodeFrom]
  | cons t ts ih =>
    show (encodeTrit t <<< (2 * (i + 1))) ||| encodeFrom ts (i + 1 + 1) =
      4 * ((encodeTrit t <<< (2 * i)) ||| encodeFrom ts (i + 1))
    rw [ih, ← four_mul_or]
    congr 1
    rw [Nat.shiftLeft_eq, Nat.shiftLeft_eq, show 2 * (i + 1) = 2 * i + 2 by ring,
      pow_add]
    ring

theorem decodeFrom_succ (w i n : Nat) :
    decodeFrom w (i + 1) n = decodeFrom (w >>> 2) i n := by
  induction n generalizing i with
  | zero => rfl
  | succ n ih =>
    show decodeTrit ((w >>> (2 * (i + 1))) &&& 3) :: decodeFrom w (i + 1 + 1) n =
      decodeTrit (((w >>> 2) >>> (2 * i)) &&& 3) :: decodeFrom (w >>> 2) (i + 1) n
    rw [ih, ← Nat.shiftRight_add, show 2 + 2 * i = 2 * (i + 1) by ring]

theorem decodeWord_succ (w n : Nat) :
    decodeWord w (n + 1) = decodeTrit (w &&& 3) :: decodeWord (w >>> 2) n := by
  show decodeTrit ((w >>> (2 * 0)) &&& 3) :: decodeFrom w 1 n = _
  rw [show 2 * 0 = 0 from rfl, Nat.shiftRight_zero,
    show decodeFrom w 1 n = decodeFrom (w >>> 2) 0 n from decodeFrom_succ w 0 n]
  rfl

theorem encodeWord_cons (t : Int) (ts : List Int) (h : IsTrit t) :
    encodeWord (t :: ts) = encodeTrit t + 4 * encodeWord ts := by
  show (encodeTrit t <<< (2 * 0)) ||| encodeFrom ts 1 = _
  rw [show 2 * 0 = 0 from rfl, Nat.shiftLeft_zero,
    show encodeFrom ts 1 = 4 * encodeFrom ts 0 from encodeFrom_succ ts 0,
    or_four _ _ (encodeTrit_lt_four t h)]
  rfl

/-- C4: decoding the packed word produced by encoding a trit vector of at
most 16 valid trits (−1 ↦ bit pair 10, +1 ↦ 01, 0 ↦ 00, at bit position
2·i; decoding maps 10 ↦ −1, 01 ↦ +1, anything else ↦ 0) gives the vector
back. -/
theorem C4_decode_encode_roundtrip (v : List Int) (hv : ∀ t ∈ v, IsTrit t)
    (hl : v.length ≤ 16) : decodeWord (encodeWord v) v.length = v := by
  induction v with
  | nil => rfl
  | cons t ts ih =>
    have ht : IsTrit t := hv t (by simp)
    have hts : ∀ x ∈ ts, IsTrit x := fun x hx => hv x (by simp [hx])
    have hlt : encodeTrit t < 4 := encodeTrit_lt_four t ht
    rw [encodeWord_cons t ts ht, List.length_cons, decodeWord_succ]
    have hhead : (encodeTrit t + 4 * encodeWord ts) &&& 3 = encodeTrit t := by
      rw [and_three]; omega
    have htail : (encodeTrit t + 4 * encodeWord ts) >>> 2 = encodeWord ts := by
      rw [Nat.shiftRight_eq_div_pow]
      show _ / 4 = _
      omega
    rw [hhead, htail, ih hts (by simp only [List.length_cons] at hl; omega)]
    have : decodeTrit (encodeTrit t) = t := by
      rcases ht with rfl | rfl | rfl <;> decide
    rw [this]

/-- Witness for C4 at the concrete vector `[−1, +1, 0]`. -/
theorem C4_witness :
    decodeWord (encodeWord [-1, 1, 0]) ([-1, 1, 0] : List Int).length =
      [-1, 1, 0] :=
  C4_decode_encode_roundtrip [-1, 1, 0] (by decide) (by decide)

end DevTernary

namespace DevTernary

/-- Addresses the read handler defines: OUTPUT words `[0x20, 0x38)`,
STATUS `0x44`, OPERAND_COUNT `0x48`. -/
def ReadAddrOk (addr : Nat) : Prop :=
  (32 ≤ addr ∧ addr < 56) ∨ addr = 68 ∨ addr = 72

instance (addr : Nat) : Decidable (ReadAddrOk addr) := by
  unfold ReadAddrOk; infer_instance

/-- C10: MMIO reads are never back-pressured. In every FSM state, a read
with width ≠ 4 returns 0 and ORs the InvalidSize flag (0x1) into status,
and a 4-byte read at an address outside the defined ranges returns 0 and
ORs the InvalidAddr flag (0x2) — so a read mutates status even while an
operation is in flight. -/
theorem C10_reads_not_backpressured (d : Dev) (addr size : Nat) :
    (size ≠ 4 →
      (ternary_mmio_read d addr size).1 = 0 ∧
      (ternary_mmio_read d addr size).2.status = d.status ||| 1) ∧
    (¬ ReadAddrOk addr →
      (ternary_mmio_read d addr 4).1 = 0 ∧
      (ternary_mmio_read d addr 4).2.status = d.status ||| 2) := by
  constructor
  · intro h
    simp [ternary_mmio_read, h]
  · intro h
    have h1 : ¬ (32 ≤ addr ∧ addr < 32 + 24) := fun hc => h (Or.inl ⟨hc.1, by omega⟩)
    have h2 : addr ≠ 68 := fun hc => h (Or.inr (Or.inl hc))
    have h3 : addr ≠ 72 := fun hc => h (Or.inr (Or.inr hc))
    simp [ternary_mmio_read, h1, h2, h3]

/-- Witness for C10: a 1-byte read and a 4-byte read at undefined address
255, both on a device busy in EXECUTE. -/
theorem C10_witness :
    ((ternary_mmio_read { initDev with state := TState.EXECUTE } 255 1).1 = 0 ∧
      (ternary_mmio_read { initDev with state := TState.EXECUTE } 255 1).2.status =
        ({ initDev with state := TState.EXECUTE } : Dev).status ||| 1) ∧
    ((ternary_mmio_read { initDev with state := TState.EXECUTE } 255 4).1 = 0 ∧
      (ternary_mmio_read { initDev with state := TState.EXECUTE } 255 4).2.status =
        ({ initDev with state := TState.EXECUTE } : Dev).status ||| 2) :=
  ⟨(C10_reads_not_backpressured _ 255 1).1 (by decide),
    (C10_reads_not_backpressured _ 255 4).2 (by decide)⟩

/-- `op` is a command write the device accepts: a 4-byte write to the
COMMAND register (0x40) while the FSM is in IDLE. -/
def AcceptsCommand (d : Dev) (op : Op) : Prop :=
  d.state = TState.IDLE ∧ ∃ value, op = Op.write 64 value 4

/-- C7: a 4-byte COMMAND write in IDLE stores the value as `command`,
zeroes `status`, and arms the FSM (state FETCH); and any operation that is
not an accepted command write can only grow `status` by ORing a mask into
it, never clearing a bit. -/
theorem C7_command_accept_and_status_monotone (d : Dev) (op : Op) :
    (∀ value, d.state = TState.IDLE →
      (ternary_mmio_write d 64 value 4).command = value ∧
      (ternary_mmio_write d 64 value 4).status = 0 ∧
      (ternary_mmio_write d 64 value 4).state = TState.FETCH) ∧
    (¬ AcceptsCommand d op → ∃ m, (applyOp d op).status = d.status ||| m) := by
  constructor
  · intro value h
    simp [ternary_mmio_write, h]
  · intro hna
    match op with
    | Op.read addr size =>
      simp only [applyOp, ternary_mmio_read]
      split
      · exact ⟨1, rfl⟩
      · split
        · split
          · exact ⟨0, (Nat.or_zero _).symm⟩
          · exact ⟨2, rfl⟩
        · split
          · exact ⟨0, (Nat.or_zero _).symm⟩
          · split
            · exact ⟨0, (Nat.or_zero _).symm⟩
            · exact ⟨2, rfl⟩
    | Op.write addr value size =>
      simp only [applyOp, ternary_mmio_write]
      split
      · exact ⟨1, rfl⟩
      · split
        · exact ⟨0, (Nat.or_zero _).symm⟩
        · split
          · split
            · split
              · exact ⟨0, (Nat.or_zero _).symm⟩
              · exact ⟨0, (Nat.or_zero _).symm⟩
            · exact ⟨0, (Nat.or_zero _).symm⟩
          · split
            · rename_i hsize hstate _ haddr
              exact absurd ⟨not_not.mp (fun hc => hstate hc),
                value, by rw [not_ne_iff.mp hsize, haddr]⟩ hna
            · split
              · exact ⟨0, (Nat.or_zero _).symm⟩
              · exact ⟨2, rfl⟩
    | Op.tick =>
      cases hs : d.state with
      | IDLE =>
        simp only [applyOp, ternary_process_state, hs]
        exact ⟨0, (Nat.or_zero _).symm⟩
      | FETCH =>
        simp only [applyOp, ternary_process_state, hs]
        exact ⟨0, (Nat.or_zero _).symm⟩
      | EXECUTE =>
        simp only [applyOp, ternary_process_state, hs, execute_command]
        split <;> (try split) <;>
          first
            | exact ⟨0, (Nat.or_zero _).symm⟩
            | exact ⟨4, rfl⟩
            | exact ⟨8, rfl⟩
            | exact ⟨16, rfl⟩
      | WRITEBACK =>
        simp only [applyOp, ternary_process_state, hs]
        exact ⟨0, (Nat.or_zero _).symm⟩
      | DONE =>
        simp only [applyOp, ternary_process_state, hs]
        exact ⟨0, (Nat.or_zero _).symm⟩

/-- Witness for C7: an accepted command write on the fresh device, and a
non-command operation (a tick). -/
theorem C7_witness :
    ((ternary_mmio_write initDev 64 3 4).command = 3 ∧
      (ternary_mmio_write initDev 64 3 4).status = 0 ∧
      (ternary_mmio_write initDev 64 3 4).state = TState.FETCH) ∧
    ∃ m, (applyOp initDev Op.tick).status = initDev.status ||| m :=
  ⟨(C7_command_accept_and_status_monotone initDev Op.tick).1 3 rfl,
    (C7_command_accept_and_status_monotone initDev Op.tick).2
      (fun h => by rcases h with ⟨-, v, hv⟩; cases hv)⟩

end DevTernary

namespace DevTernary

/-- Effect of one 4-byte input-word write (`addr < 0x18`) in IDLE with
`operand_count = 6`: with 5 words already received it arms the FSM
(FETCH, counter reset), otherwise it stays in IDLE and just counts. -/
theorem input_write_step (d : Dev) (addr value : Nat) (ha : addr < 24)
    (hidle : d.state = TState.IDLE) (hcount : d.operand_count = 6)
    (hlt : d.operand_words < 6) :
    (d.operand_words = 5 →
      (ternary_mmio_write d addr value 4).state = TState.FETCH ∧
      (ternary_mmio_write d addr value 4).operand_words = 0) ∧
    (d.operand_words < 5 →
      (ternary_mmio_write d addr value 4).state = TState.IDLE ∧
      (ternary_mmio_write d addr value 4).operand_words = d.operand_words + 1 ∧
      (ternary_mmio_write d addr value 4).operand_count = 6) := by
  have hto : addr / 4 * 16 < 81 := by omega
  constructor
  · intro h5
    have hm : (d.operand_words + 1) % 4294967296 = 6 := by
      rw [h5]
    simp [ternary_mmio_write, hidle, ha, hto, hcount, hm]
  · intro h5
    have hm : (d.operand_words + 1) % 4294967296 = d.operand_words + 1 :=
      Nat.mod_eq_of_lt (by omega)
    have hn : ¬ (6 ≤ d.operand_words + 1) := by omega
    simp [ternary_mmio_write, hidle, ha, hto, hcount, hm, hn]

/-- A sequence of 4-byte input-word writes (address, value pairs). -/
def inputWrites (d : Dev) (ps : List (Nat × Nat)) : Dev :=
  ps.foldl (fun d p => ternary_mmio_write d p.1 p.2 4) d

/-- C9: an accepted COMMAND write leaves `operand_words` unchanged, ticks
leave it unchanged, and from IDLE with `operand_count = 6` and
`operand_words = k`, `0 < k < 6`, exactly `6 − k` further input-word
writes arm the FSM (state FETCH, counter reset) — not 6. -/
theorem C9_partial_transfer_survives_command (d : Dev) (ps : List (Nat × Nat)) :
    (∀ value, d.state = TState.IDLE →
      (ternary_mmio_write d 64 value 4).operand_words = d.operand_words) ∧
    ((ternary_process_state d).operand_words = d.operand_words) ∧
    (d.state = TState.IDLE → d.operand_count = 6 → 0 < d.operand_words →
      d.operand_words < 6 → (∀ p ∈ ps, p.1 < 24) →
      ps.length = 6 - d.operand_words →
      (inputWrites d ps).state = TState.FETCH ∧
      (inputWrites d ps).operand_words = 0) := by
  refine ⟨fun value h => ?_, ?_, ?_⟩
  · simp [ternary_mmio_write, h]
  · cases hs : d.state with
    | IDLE => simp [ternary_process_state, hs]
    | FETCH => simp [ternary_process_state, hs]
    | EXECUTE =>
      simp only [ternary_process_state, hs, execute_command]
      split <;> (try split) <;> rfl
    | WRITEBACK => simp [ternary_process_state, hs]
    | DONE => simp [ternary_process_state, hs]
  · induction ps generalizing d with
    | nil =>
      intro _ _ hpos hlt _ hlen
      simp only [List.length_nil] at hlen
      omega
    | cons p ps ih =>
      intro hidle hcount hpos hlt hmem hlen
      have hap : p.1 < 24 := hmem p (by simp)
      have step := input_write_step d p.1 p.2 hap hidle hcount hlt
      show (inputWrites (ternary_mmio_write d p.1 p.2 4) ps).state = TState.FETCH ∧
        (inputWrites (ternary_mmio_write d p.1 p.2 4) ps).operand_words = 0
      by_cases h5 : d.operand_words = 5
      · have hps : ps = [] := by
          have : ps.length = 0 := by
            simp only [List.length_cons] at hlen; omega
          exact List.length_eq_zero.mp this
      
        obtain ⟨hst, how⟩ := step.1 h5
        rw [hps]
        exact ⟨hst, how⟩
      · obtain ⟨hst, how, hoc⟩ := step.2 (by omega)
        exact ih (ternary_mmio_write d p.1 p.2 4) hst hoc (by omega)
          (by omega) (fun q hq => hmem q (by simp [hq]))
          (by simp only [List.length_cons] at hlen; omega)
end DevTernary

namespace DevTernary

/-- Witness for C9: with 4 of 6 input words received, a command write and
a tick both keep `operand_words = 4`, and two more input-word writes arm
the FSM. -/
theorem C9_witness :
    (ternary_mmio_write { initDev with operand_words := 4 } 64 9 4).operand_words =
      ({ initDev with operand_words := 4 } : Dev).operand_words ∧
    (ternary_process_state { initDev with operand_words := 4 }).operand_words =
      ({ initDev with operand_words := 4 } : Dev).operand_words ∧
    (inputWrites { initDev with operand_words := 4 } [(0, 0), (4, 0)]).state =
      TState.FETCH ∧
    (inputWrites { initDev with operand_words := 4 } [(0, 0), (4, 0)]).operand_words =
      0 :=
  ⟨(C9_partial_transfer_survives_command { initDev with operand_words := 4 }
      [(0, 0), (4, 0)]).1 9 rfl,
    (C9_partial_transfer_survives_command { initDev with operand_words := 4 }
      [(0, 0), (4, 0)]).2.1,
    (C9_partial_transfer_survives_command { initDev with operand_words := 4 }
      [(0, 0), (4, 0)]).2.2 rfl rfl (by decide) (by decide) (by decide) rfl⟩

end DevTernary

namespace DevTernary

/-- Outside the WRITEBACK state, `output` agrees with `temp_result` on all
81 positions (WRITEBACK is exactly the state that re-synchronizes them). -/
def OutMirrorsTemp (d : Dev) : Prop :=
  d.state ≠ TState.WRITEBACK → ∀ j, j < 81 → d.output j = d.temp_result j

theorem read_snd_frame (d : Dev) (addr size : Nat) :
    (ternary_mmio_read d addr size).2.output = d.output ∧
    (ternary_mmio_read d addr size).2.temp_result = d.temp_result ∧
    (ternary_mmio_read d addr size).2.state = d.state ∧
    (ternary_mmio_read d addr size).2.stack = d.stack ∧
    (ternary_mmio_read d addr size).2.stack_ptr = d.stack_ptr ∧
    (ternary_mmio_read d addr size).2.input = d.input := by
  unfold ternary_mmio_read
  dsimp only
  split <;> (try split) <;> (try split) <;> (try split) <;>
    exact ⟨rfl, rfl, rfl, rfl, rfl, rfl⟩

theorem write_frame (d : Dev) (addr value size : Nat) :
    (ternary_mmio_write d addr value size).output = d.output ∧
    (ternary_mmio_write d addr value size).temp_result = d.temp_result ∧
    (ternary_mmio_write d addr value size).stack = d.stack ∧
    (ternary_mmio_write d addr value size).stack_ptr = d.stack_ptr := by
  unfold ternary_mmio_write
  dsimp only
  split <;> (try split) <;> (try split) <;> (try split) <;> (try split) <;>
    exact ⟨rfl, rfl, rfl, rfl⟩

theorem write_keeps_writeback (d : Dev) (addr value size : Nat)
    (h : d.state = TState.WRITEBACK) :
    (ternary_mmio_write d addr value size).state = TState.WRITEBACK := by
  have hn : d.state ≠ TState.IDLE := by rw [h]; intro hc; cases hc
  by_cases hsz : size ≠ 4
  · simp [ternary_mmio_write, hsz, h]
  · simp [ternary_mmio_write, hsz, hn, h]

theorem outMirrors_applyOp (d : Dev) (op : Op) (h : OutMirrorsTemp d) :
    OutMirrorsTemp (applyOp d op) := by
  match op with
  | Op.read addr size =>
    intro hs j hj
    have f := read_snd_frame d addr size
    have hsr : (ternary_mmio_read d addr size).2.state ≠ TState.WRITEBACK := hs
    show (ternary_mmio_read d addr size).2.output j =
      (ternary_mmio_read d addr size).2.temp_result j
    rw [f.1, f.2.1]
    refine h (fun hw => hsr ?_) j hj
    rw [f.2.2.1]
    exact hw
  | Op.write addr value size =>
    intro hs j hj
    have f := write_frame d addr value size
    have hsw : (ternary_mmio_write d addr value size).state ≠ TState.WRITEBACK := hs
    show (ternary_mmio_write d addr value size).output j =
      (ternary_mmio_write d addr value size).temp_result j
    rw [f.1, f.2.1]
    exact h (fun hw => hsw (write_keeps_writeback d addr value size hw)) j hj
  | Op.tick =>
    show OutMirrorsTemp (ternary_process_state d)
    cases hstate : d.state with
    | IDLE => simpa [ternary_process_state, hstate] using h
    | FETCH =>
      simp only [ternary_process_state, hstate]
      intro _ j hj
      exact h (by rw [hstate]; intro hc; cases hc) j hj
    | EXECUTE =>
      simp only [ternary_process_state, hstate]
      intro hs
      exact absurd rfl hs
    | WRITEBACK =>
      simp only [ternary_process_state, hstate]
      intro _ j hj
      simp [hj]
    | DONE =>
      simp only [ternary_process_state, hstate]
      intro _ j hj
      exact h (by rw [hstate]; intro hc; cases hc) j hj

theorem outMirrors_run (ops : List Op) (d : Dev) (h : OutMirrorsTemp d) :
    OutMirrorsTemp (run d ops) := by
  induction ops generalizing d with
  | nil => exact h
  | cons op ops ih => exact ih (applyOp d op) (outMirrors_applyOp d op h)

theorem outMirrors_reachable (d : Dev) (h : Reachable d) : OutMirrorsTemp d := by
  obtain ⟨ops, rfl⟩ := h
  exact outMirrors_run ops initDev (fun _ j _ => rfl)

end DevTernary

namespace DevTernary

/-- C5: from any reachable state armed (state FETCH) with POP (2), NOT (4)
and an empty stack, or ADD (3), AND (5) and fewer than two slots, the full
five-tick cycle ORs the StackUnderflow flag (0x8) into status and leaves
the output register exactly as it was before. -/
theorem C5_underflow_sets_flag_output_unchanged (d : Dev) (hr : Reachable d)
    (hf : d.state = TState.FETCH)
    (hc : ((d.command = 2 ∨ d.command = 4) ∧ d.stack_ptr < 1) ∨
          ((d.command = 3 ∨ d.command = 5) ∧ d.stack_ptr < 2)) :
    (ternary_process_state (ternary_process_state (ternary_process_state
      (ternary_process_state (ternary_process_state d))))).status =
        d.status ||| 8 ∧
    (ternary_process_state (ternary_process_state (ternary_process_state
      (ternary_process_state (ternary_process_state d))))).output =
        d.output := by
  have hmir := outMirrors_reachable d hr
  have e1 : ternary_process_state d = { d with state := TState.EXECUTE } := by
    simp [ternary_process_state, hf]
  have e2 : ternary_process_state { d with state := TState.EXECUTE } =
      { d with state := TState.WRITEBACK, status := d.status ||| 8 } := by
    rcases hc with ⟨hcmd, hsp⟩ | ⟨hcmd, hsp⟩ <;> rcases hcmd with hcmd | hcmd
    · have hn : ¬ (0 < d.stack_ptr) := by omega
      simp [ternary_process_state, execute_command, hcmd, hn]
    · have hn : ¬ (1 ≤ d.stack_ptr) := by omega
      simp [ternary_process_state, execute_command, hcmd, hn]
    · have hn : ¬ (2 ≤ d.stack_ptr) := by omega
      simp [ternary_process_state, execute_command, hcmd, hn]
    · have hn : ¬ (2 ≤ d.stack_ptr) := by omega
      simp [ternary_process_state, execute_command, hcmd, hn]
  have e3 : ternary_process_state
      { d with state := TState.WRITEBACK, status := d.status ||| 8 } =
      { d with state := TState.DONE, status := d.status ||| 8,
               output := fun j => if j < 81 then d.temp_result j else d.output j } := by
    simp [ternary_process_state]
  have e4 : ternary_process_state
      { d with state := TState.DONE, status := d.status ||| 8,
               output := fun j => if j < 81 then d.temp_result j else d.output j } =
      { d with state := TState.IDLE, status := d.status ||| 8,
               output := fun j => if j < 81 then d.temp_result j else d.output j } := by
    simp [ternary_process_state]
  have e5 : ternary_process_state
      { d with state := TState.IDLE, status := d.status ||| 8,
               output := fun j => if j < 81 then d.temp_result j else d.output j } =
      { d with state := TState.IDLE, status := d.status ||| 8,
               output := fun j => if j < 81 then d.temp_result j else d.output j } := by
    simp [ternary_process_state]
  rw [e1, e2, e3, e4, e5]
  refine ⟨rfl, ?_⟩
  show (fun j => if j < 81 then d.temp_result j else d.output j) = d.output
  funext j
  by_cases hj : j < 81
  · simp only [hj, if_pos]
    exact (hmir (by rw [hf]; intro hw; cases hw) j hj).symm
  · simp [hj]

end DevTernary

namespace DevTernary

/-- Witness for C5: command ADD written to the fresh (empty-stack) device,
then five ticks. -/
theorem C5_witness :
    (ternary_process_state (ternary_process_state (ternary_process_state
      (ternary_process_state (ternary_process_state
        (ternary_mmio_write initDev 64 3 4)))))).status =
      (ternary_mmio_write initDev 64 3 4).status ||| 8 ∧
    (ternary_process_state (ternary_process_state (ternary_process_state
      (ternary_process_state (ternary_process_state
        (ternary_mmio_write initDev 64 3 4)))))).output =
      (ternary_mmio_write initDev 64 3 4).output :=
  C5_underflow_sets_flag_output_unchanged (ternary_mmio_write initDev 64 3 4)
    ⟨[Op.write 64 3 4], rfl⟩ (by decide)
    (Or.inr ⟨Or.inl (by decide), by decide⟩)

end DevTernary

namespace DevTernary

theorem decodeTrit_isTrit (b : Nat) : IsTrit (decodeTrit b) := by
  unfold decodeTrit
  split
  · exact Or.inl rfl
  · split
    · exact Or.inr (Or.inr rfl)
    · exact Or.inr (Or.inl rfl)

theorem ternary_add_fst_isTrit (a b : Int) (ha : IsTrit a) (hb : IsTrit b) :
    IsTrit (ternary_add a b).1 := by
  rcases ha with rfl | rfl | rfl <;> rcases hb with rfl | rfl | rfl <;> decide

theorem ternary_not_isTrit (a : Int) (ha : IsTrit a) :
    IsTrit (ternary_not a) := by
  rcases ha with rfl | rfl | rfl <;> decide

theorem ternary_and_isTrit (a b : Int) (ha : IsTrit a) (hb : IsTrit b) :
    IsTrit (ternary_and a b) := by
  rcases ha with rfl | rfl | rfl <;> rcases hb with rfl | rfl | rfl <;> decide

/-- All 81 positions of a trit vector hold balanced-ternary digits. -/
def TritVec (f : Nat → Int) : Prop := ∀ j, j < 81 → IsTrit (f j)

/-- The C8 invariant: `stack_ptr ≤ STACK_DEPTH = 16` and every element of
`input`, `output`, `temp_result` and of every occupied stack slot is a
balanced-ternary digit. -/
def Inv8 (d : Dev) : Prop :=
  d.stack_ptr ≤ 16 ∧ TritVec d.input ∧ TritVec d.output ∧
    TritVec d.temp_result ∧ ∀ k, k < d.stack_ptr → TritVec (d.stack k)

theorem inv8_write (d : Dev) (addr value size : Nat) (h : Inv8 d) :
    Inv8 (ternary_mmio_write d addr value size) := by
  obtain ⟨hsp, hin, hout, htmp, hstk⟩ := h
  unfold ternary_mmio_write
  dsimp only
  split
  · exact ⟨hsp, hin, hout, htmp, hstk⟩
  · split
    · exact ⟨hsp, hin, hout, htmp, hstk⟩
    · split
      · split
        · split
          · refine ⟨hsp, ?_, hout, htmp, hstk⟩
            intro j hj
            dsimp only
            split <;> split <;>
              first
                | exact decodeTrit_isTrit _
                | exact hin j hj
          · refine ⟨hsp, ?_, hout, htmp, hstk⟩
            intro j hj
            dsimp only
            split <;> split <;>
              first
                | exact decodeTrit_isTrit _
                | exact hin j hj
        · exact ⟨hsp, hin, hout, htmp, hstk⟩
      · split
        · exact ⟨hsp, hin, hout, htmp, hstk⟩
        · split
          · exact ⟨hsp, hin, hout, htmp, hstk⟩
          · exact ⟨hsp, hin, hout, htmp, hstk⟩

theorem inv8_read (d : Dev) (addr size : Nat) (h : Inv8 d) :
    Inv8 (ternary_mmio_read d addr size).2 := by
  obtain ⟨hsp, hin, hout, htmp, hstk⟩ := h
  unfold ternary_mmio_read
  dsimp only
  split <;> (try split) <;> (try split) <;> (try split) <;>
    exact ⟨hsp, hin, hout, htmp, hstk⟩

end DevTernary

namespace DevTernary

theorem inv8_tick (d : Dev) (h : Inv8 d) : Inv8 (ternary_process_state d) := by
  obtain ⟨hsp, hin, hout, htmp, hstk⟩ := h
  cases hs : d.state with
  | IDLE =>
    simp only [ternary_process_state, hs]
    exact ⟨hsp, hin, hout, htmp, hstk⟩
  | FETCH =>
    simp only [ternary_process_state, hs]
    exact ⟨hsp, hin, hout, htmp, hstk⟩
  | WRITEBACK =>
    simp only [ternary_process_state, hs]
    refine ⟨hsp, hin, ?_, htmp, hstk⟩
    intro j hj
    dsimp only
    rw [if_pos hj]
    exact htmp j hj
  | DONE =>
    simp only [ternary_process_state, hs]
    exact ⟨hsp, hin, hout, htmp, hstk⟩
  | EXECUTE =>
    simp only [ternary_process_state, hs]
    unfold execute_command
    split
    · -- NOP (0)
      refine ⟨hsp, hin, hout, ?_, hstk⟩
      intro j hj
      dsimp only
      rw [if_pos hj]
      exact Or.inr (Or.inl rfl)
    · -- ADD (3)
      split
      · rename_i h2
        refine ⟨show d.stack_ptr - 1 ≤ 16 by omega, hin, hout, ?_, ?_⟩
        · intro j hj
          dsimp only
          rw [if_pos hj]
          exact ternary_add_fst_isTrit _ _
            (hstk (d.stack_ptr - 1) (by omega) j hj)
            (hstk (d.stack_ptr - 2) (by omega) j hj)
        · intro k hk j hj
          have hk2 : k < d.stack_ptr - 1 := hk
          clear hk
          have hl1 : d.stack_ptr - 1 < d.stack_ptr := by omega
          have hl2 : d.stack_ptr - 2 < d.stack_ptr := by omega
          have hkl : k < d.stack_ptr := by omega
          dsimp only
          split
          · exact ternary_add_fst_isTrit _ _
              (hstk (d.stack_ptr - 1) hl1 j hj)
              (hstk (d.stack_ptr - 2) hl2 j hj)
          · exact hstk k hkl j hj
      · exact ⟨hsp, hin, hout, htmp, hstk⟩
    · -- NOT (4)
      split
      · rename_i h1
        refine ⟨hsp, hin, hout, ?_, ?_⟩
        · intro j hj
          dsimp only
          rw [if_pos hj]
          exact ternary_not_isTrit _ (hstk (d.stack_ptr - 1) (by omega) j hj)
        · intro k hk j hj
          have hk2 : k < d.stack_ptr := hk
          clear hk
          have hl1 : d.stack_ptr - 1 < d.stack_ptr := by omega
          dsimp only
          split
          · exact ternary_not_isTrit _ (hstk (d.stack_ptr - 1) hl1 j hj)
          · exact hstk k hk2 j hj
      · exact ⟨hsp, hin, hout, htmp, hstk⟩
    · -- AND (5)
      split
      · rename_i h2
        refine ⟨show d.stack_ptr - 1 ≤ 16 by omega, hin, hout, ?_, ?_⟩
        · intro j hj
          dsimp only
          rw [if_pos hj]
          exact ternary_and_isTrit _ _
            (hstk (d.stack_ptr - 1) (by omega) j hj)
            (hstk (d.stack_ptr - 2) (by omega) j hj)
        · intro k hk j hj
          have hk2 : k < d.stack_ptr - 1 := hk
          clear hk
          have hl1 : d.stack_ptr - 1 < d.stack_ptr := by omega
          have hl2 : d.stack_ptr - 2 < d.stack_ptr := by omega
          have hkl : k < d.stack_ptr := by omega
          dsimp only
          split
          · exact ternary_and_isTrit _ _
              (hstk (d.stack_ptr - 1) hl1 j hj)
              (hstk (d.stack_ptr - 2) hl2 j hj)
          · exact hstk k hkl j hj
      · exact ⟨hsp, hin, hout, htmp, hstk⟩
    · -- PUSH (1)
      split
      · rename_i hlt
        refine ⟨show d.stack_ptr + 1 ≤ 16 by omega, hin, hout, ?_, ?_⟩
        · intro j hj
          dsimp only
          rw [if_pos hj]
          exact hin j hj
        · intro k hk j hj
          have hk2 : k < d.stack_ptr + 1 := hk
          dsimp only
          split
          · exact hin j hj
          · rename_i hnc
            have hke : k ≠ d.stack_ptr := fun he => hnc ⟨he, hj⟩
            exact hstk k (Nat.lt_of_le_of_ne (Nat.lt_succ_iff.mp hk2) hke) j hj
      · exact ⟨hsp, hin, hout, htmp, hstk⟩
    · -- POP (2)
      split
      · rename_i hpos
        refine ⟨show d.stack_ptr - 1 ≤ 16 by omega, hin, hout, ?_, ?_⟩
        · intro j hj
          dsimp only
          rw [if_pos hj]
          exact hstk (d.stack_ptr - 1) (by omega) j hj
        · intro k hk j hj
          have hk2 : k < d.stack_ptr - 1 := hk
          clear hk
          have hkl : k < d.stack_ptr := by omega
          exact hstk k hkl j hj
      · exact ⟨hsp, hin, hout, htmp, hstk⟩
    · -- SHA3 (6)
      refine ⟨hsp, hin, hout, ?_, hstk⟩
      intro j hj
      dsimp only
      rw [if_pos hj]
      exact hin _ (Nat.mod_lt _ (by omega))
    · -- unknown command
      exact ⟨hsp, hin, hout, htmp, hstk⟩

theorem inv8_applyOp (d : Dev) (op : Op) (h : Inv8 d) : Inv8 (applyOp d op) := by
  match op with
  | Op.read addr size => exact inv8_read d addr size h
  | Op.write addr value size => exact inv8_write d addr value size h
  | Op.tick => exact inv8_tick d h

theorem inv8_run (ops : List Op) (d : Dev) (h : Inv8 d) : Inv8 (run d ops) := by
  induction ops generalizing d with
  | nil => exact h
  | cons op ops ih => exact ih (applyOp d op) (inv8_applyOp d op h)

theorem inv8_init : Inv8 initDev :=
  ⟨Nat.le_of_lt (by decide), fun _ _ => Or.inr (Or.inl rfl),
    fun _ _ => Or.inr (Or.inl rfl), fun _ _ => Or.inr (Or.inl rfl),
    fun k hk => absurd (show k < 0 from hk) (Nat.not_lt_zero k)⟩

/-- C8: in every state reachable from the constructed device by MMIO
reads, MMIO writes and ticks, `stack_ptr ≤ 16` and every element of
`input`, `output`, `temp_result` and of every occupied stack slot lies in
`{−1, 0, +1}`. -/
theorem C8_reachable_invariant (d : Dev) (hr : Reachable d) :
    d.stack_ptr ≤ 16 ∧
    (∀ j, j < 81 →
      IsTrit (d.input j) ∧ IsTrit (d.output j) ∧ IsTrit (d.temp_result j)) ∧
    (∀ k, k < d.stack_ptr → ∀ j, j < 81 → IsTrit (d.stack k j)) := by
  obtain ⟨ops, rfl⟩ := hr
  obtain ⟨hsp, hin, hout, htmp, hstk⟩ := inv8_run ops initDev inv8_init
  exact ⟨hsp, fun j hj => ⟨hin j hj, hout j hj, htmp j hj⟩,
    fun k hk j hj => hstk k hk j hj⟩

/-- Witness for C8 at the constructed device itself. -/
theorem C8_witness :
    initDev.stack_ptr ≤ 16 ∧
    (∀ j, j < 81 →
      IsTrit (initDev.input j) ∧ IsTrit (initDev.output j) ∧
        IsTrit (initDev.temp_result j)) ∧
    (∀ k, k < initDev.stack_ptr → ∀ j, j < 81 → IsTrit (initDev.stack k j)) :=
  C8_reachable_invariant initDev ⟨[], rfl⟩

end DevTernary
